import Mathlib

/-!
Verification of `cargo-executable-payload` (src/src/lib.rs, src/src/main.rs).

The development shallowly embeds the parts of the program the claims are
about:

* the payload codec: the build-time base64 encoder (`base64::encode`) and
  the decoder that `format_with_template` emits into the generated program
  (lib.rs lines 374–403);
* the target resolver (`bin_targets`, `bin_target_by_name`,
  `bin_target_by_src_path`, `exactly_one_bin_target`, lib.rs lines 197–255);
* the artifact-path computation of `build` (lib.rs lines 316–319),
  including `camino`'s `set_extension` semantics;
* the control flow of `build` (lib.rs lines 257–347) over an abstract
  environment recording which external tools exist and how they exit;
* the generated loader's `main` (the template in `format_with_template`,
  lib.rs lines 365–372);
* the documentation-block rendering of `format_with_template`
  (lib.rs lines 408–414).

Bytes are modelled as `Nat` with explicit `% 256` where `u8` wrapping
matters; strings processed byte-wise are `List Nat`, strings handled as
text are Lean `String`s.
-/

namespace CargoExecutablePayload

set_option maxRecDepth 100000

/-! ## Payload codec

The generated decoder (lib.rs lines 374–403) works on the bytes of the
payload string.  We model byte strings as `List Nat` (each entry `< 256`);
`61` is the byte of `'='`. -/

/-- Byte values of the base64 alphabet
`ABCDEFGHIJKLMNOPQRSTUVWXYZabcdefghijklmnopqrstuvwxyz0123456789+/`,
the byte-string literal iterated by the generated decoder's table-building
loop (lib.rs line 376). -/
def b64AlphabetBytes : List Nat :=
  "ABCDEFGHIJKLMNOPQRSTUVWXYZabcdefghijklmnopqrstuvwxyz0123456789+/".toList.map Char.toNat

/-- The decoder's 256-entry lookup table (lib.rs lines 375–381): start from
`[0; 256]` and, for each alphabet byte `c` at position `i`, set entry `c`
to `i`. -/
def b64Table : List Nat :=
  (List.zip (List.range 64) b64AlphabetBytes).foldl (fun t ic => t.set ic.2 ic.1)
    (List.replicate 256 0)

/-- Indexing `table[usize::from(b)]` for a payload byte `b` (always
`< 256`, so the read is in bounds; the default is never used on real
inputs). -/
def tableLookup (b : Nat) : Nat := b64Table.getD b 0

/-- The alphabet byte for a 6-bit value, used by the encoder model. -/
def b64chr (v : Nat) : Nat := b64AlphabetBytes.getD v 0

/-- Modelled from the spec (§4.3): the build-time encoder is the external
`base64` crate (`base64::encode`, lib.rs line 343), whose code is not part
of this repository.  Per the spec it is standard base64: alphabet
`A-Za-z0-9+/`, `=` padding to a multiple of 4 characters, no line
wrapping; 3 input bytes become 4 output characters by 6-bit grouping. -/
def encodeB64 : List Nat → List Nat
  | [] => []
  | [b0] => [b64chr (b0 / 4), b64chr (b0 % 4 * 16), 61, 61]
  | [b0, b1] => [b64chr (b0 / 4), b64chr (b0 % 4 * 16 + b1 / 16), b64chr (b1 % 16 * 4), 61]
  | b0 :: b1 :: b2 :: rest =>
      b64chr (b0 / 4) :: b64chr (b0 % 4 * 16 + b1 / 16) ::
        b64chr (b1 % 16 * 4 + b2 / 64) :: b64chr (b2 % 64) :: encodeB64 rest

/-- The chunk loop of the generated decoder (lib.rs lines 385–393):
`PAYLOAD.as_bytes().chunks(4)` with the three pushes per chunk.  A final
chunk of fewer than 4 bytes would make `chunk[1]`/`chunk[2]`/`chunk[3]`
panic with an out-of-bounds index; that branch is modelled as `none`.
Shifts and adds are on `u8`, hence the explicit `% 256`. -/
def decodeChunksCore : List Nat → Option (List Nat)
  | [] => some []
  | b0 :: b1 :: b2 :: b3 :: rest =>
      (decodeChunksCore rest).map fun acc =>
        (tableLookup b0 * 4 % 256 + tableLookup b1 / 16) % 256 ::
        (tableLookup b1 * 16 % 256 + tableLookup b2 / 4) % 256 ::
        (tableLookup b2 * 64 % 256 + tableLookup b3) % 256 :: acc
  | _ => none

/-- The generated decoder `decode()` (lib.rs lines 374–403): run the chunk
loop, then pop two bytes if the payload ends with `"=="`, else pop one if
it ends with `"="`. -/
def decodeB64 (p : List Nat) : Option (List Nat) :=
  match decodeChunksCore p with
  | none => none
  | some acc =>
      if [61, 61] <:+ p then some acc.dropLast.dropLast
      else if [61] <:+ p then some acc.dropLast
      else some acc

/-- Raw output of the chunk loop on an encoded input: the original bytes
padded with zeros to a multiple of 3 (before trimming). -/
def pad3 : List Nat → List Nat
  | [] => []
  | [b0] => [b0, 0, 0]
  | [b0, b1] => [b0, b1, 0]
  | b0 :: b1 :: b2 :: rest => b0 :: b1 :: b2 :: pad3 rest

section CodecLemmas

set_option maxRecDepth 10000

theorem tableLookup_b64chr : ∀ v < 64, tableLookup (b64chr v) = v := by decide

theorem b64chr_ne_61 : ∀ v < 64, b64chr v ≠ 61 := by decide

theorem tableLookup_61 : tableLookup 61 = 0 := by decide

end CodecLemmas

theorem encodeB64_length (bs : List Nat) :
    (encodeB64 bs).length = 4 * ((bs.length + 2) / 3) := by
  induction bs using encodeB64.induct <;> simp [encodeB64, *]
  omega

theorem encodeB64_length_mod4 (bs : List Nat) : (encodeB64 bs).length % 4 = 0 := by
  rw [encodeB64_length]; omega

theorem decodeChunksCore_encodeB64 (bs : List Nat) (h : ∀ b ∈ bs, b < 256) :
    decodeChunksCore (encodeB64 bs) = some (pad3 bs) := by
  induction bs using encodeB64.induct with
  | case1 => rfl
  | case2 b0 =>
      have h0 : b0 < 256 := h b0 (by simp)
      simp only [encodeB64, decodeChunksCore, Option.map_some', pad3,
        tableLookup_b64chr (b0 / 4) (by omega),
        tableLookup_b64chr (b0 % 4 * 16) (by omega), tableLookup_61]
      congr 1
      simp only [List.cons.injEq, and_true]
      omega
  | case3 b0 b1 =>
      have h0 : b0 < 256 := h b0 (by simp)
      have h1 : b1 < 256 := h b1 (by simp)
      simp only [encodeB64, decodeChunksCore, Option.map_some', pad3,
        tableLookup_b64chr (b0 / 4) (by omega),
        tableLookup_b64chr (b0 % 4 * 16 + b1 / 16) (by omega),
        tableLookup_b64chr (b1 % 16 * 4) (by omega), tableLookup_61]
      congr 1
      simp only [List.cons.injEq, and_true]
      omega
  | case4 b0 b1 b2 rest ih =>
      have h0 : b0 < 256 := h b0 (by simp)
      have h1 : b1 < 256 := h b1 (by simp)
      have h2 : b2 < 256 := h b2 (by simp)
      have hrest : ∀ b ∈ rest, b < 256 := fun b hb => h b (by simp [hb])
      simp only [encodeB64, decodeChunksCore, ih hrest, Option.map_some', pad3,
        tableLookup_b64chr (b0 / 4) (by omega),
        tableLookup_b64chr (b0 % 4 * 16 + b1 / 16) (by omega),
        tableLookup_b64chr (b1 % 16 * 4 + b2 / 64) (by omega),
        tableLookup_b64chr (b2 % 64) (by omega)]
      congr 1
      simp only [List.cons.injEq, and_true]
      omega

theorem b64AlphabetBytes_length : b64AlphabetBytes.length = 64 := by decide

theorem b64chr_ne_61' (v : Nat) : b64chr v ≠ 61 := by
  by_cases h : v < 64
  · exact b64chr_ne_61 v h
  · unfold b64chr
    rw [List.getD_eq_default]
    · decide
    · rw [b64AlphabetBytes_length]; omega

theorem encodeB64_ne_nil (bs : List Nat) (h : bs ≠ []) : 4 ≤ (encodeB64 bs).length := by
  rw [encodeB64_length]
  have : 1 ≤ bs.length := by
    cases bs with
    | nil => exact absurd rfl h
    | cons a t => simp
  omega

theorem suffix_append_iff_of_le {α : Type} (s a b : List α) (h : s.length ≤ b.length) :
    s <:+ a ++ b ↔ s <:+ b := by
  constructor
  · intro hs
    rcases hs with ⟨t, ht⟩
    have hlen : a.length ≤ t.length := by
      have hl := congrArg List.length ht
      simp only [List.length_append] at hl
      omega
    refine ⟨t.drop a.length, ?_⟩
    have h1 : (t ++ s).drop a.length = t.drop a.length ++ s :=
      List.drop_append_of_le_length hlen
    have h2 : (t ++ s).drop a.length = b := by rw [ht, List.drop_left]
    rw [← h1, h2]
  · intro hs
    exact hs.trans (List.suffix_append a b)

theorem suffix2_iff_last2 (x y a b c d : Nat) :
    ([x, y] <:+ [a, b, c, d]) ↔ x = c ∧ y = d := by
  rw [List.suffix_iff_eq_drop]
  simp

theorem suffix1_iff_last (x a b c d : Nat) :
    ([x] <:+ [a, b, c, d]) ↔ x = d := by
  rw [List.suffix_iff_eq_drop]
  simp

theorem suffix2_encodeB64 (bs : List Nat) :
    ([61, 61] <:+ encodeB64 bs) ↔ bs.length % 3 = 1 := by
  induction bs using encodeB64.induct with
  | case1 =>
      simp [encodeB64, List.suffix_nil]
  | case2 b0 =>
      refine iff_of_true ⟨[b64chr (b0 / 4), b64chr (b0 % 4 * 16)], rfl⟩ rfl
  | case3 b0 b1 =>
      refine iff_of_false ?_ (by simp)
      rw [show encodeB64 [b0, b1]
          = [b64chr (b0 / 4), b64chr (b0 % 4 * 16 + b1 / 16), b64chr (b1 % 16 * 4), 61]
          from rfl, suffix2_iff_last2]
      intro hc
      exact b64chr_ne_61' _ hc.1.symm
  | case4 b0 b1 b2 rest ih =>
      rw [show encodeB64 (b0 :: b1 :: b2 :: rest)
          = [b64chr (b0 / 4), b64chr (b0 % 4 * 16 + b1 / 16),
             b64chr (b1 % 16 * 4 + b2 / 64), b64chr (b2 % 64)] ++ encodeB64 rest from rfl]
      by_cases hr : rest = []
      · subst hr
        rw [show encodeB64 ([] : List Nat) = [] from rfl, List.append_nil, suffix2_iff_last2]
        simp only [List.length_cons, List.length_nil]
        constructor
        · intro hc
          exact absurd hc.2.symm (b64chr_ne_61' _)
        · omega
      · rw [suffix_append_iff_of_le _ _ _
            (by have := encodeB64_ne_nil rest hr
                simp only [List.length_cons, List.length_nil]
                omega), ih]
        simp only [List.length_cons]
        omega

theorem suffix1_encodeB64 (bs : List Nat) :
    ([61] <:+ encodeB64 bs) ↔ bs.length % 3 ≠ 0 := by
  induction bs using encodeB64.induct with
  | case1 =>
      simp [encodeB64, List.suffix_nil]
  | case2 b0 =>
      refine iff_of_true ⟨[b64chr (b0 / 4), b64chr (b0 % 4 * 16), 61], rfl⟩ (by simp)
  | case3 b0 b1 =>
      refine iff_of_true
        ⟨[b64chr (b0 / 4), b64chr (b0 % 4 * 16 + b1 / 16), b64chr (b1 % 16 * 4)], rfl⟩
        (by simp)
  | case4 b0 b1 b2 rest ih =>
      rw [show encodeB64 (b0 :: b1 :: b2 :: rest)
          = [b64chr (b0 / 4), b64chr (b0 % 4 * 16 + b1 / 16),
             b64chr (b1 % 16 * 4 + b2 / 64), b64chr (b2 % 64)] ++ encodeB64 rest from rfl]
      by_cases hr : rest = []
      · subst hr
        rw [show encodeB64 ([] : List Nat) = [] from rfl, List.append_nil, suffix1_iff_last]
        simp only [List.length_cons, List.length_nil]
        constructor
        · intro hc
          exact absurd hc.symm (b64chr_ne_61' _)
        · omega
      · rw [suffix_append_iff_of_le _ _ _
            (by have := encodeB64_ne_nil rest hr
                simp only [List.length_cons, List.length_nil]
                omega), ih]
        simp only [List.length_cons]
        omega

theorem pad3_mod0 (bs : List Nat) (h : bs.length % 3 = 0) : pad3 bs = bs := by
  induction bs using pad3.induct with
  | case1 => rfl
  | case2 b0 => simp at h
  | case3 b0 b1 => simp at h
  | case4 b0 b1 b2 rest ih =>
      simp only [List.length_cons] at h
      simp only [pad3, ih (by omega)]

theorem pad3_mod1 (bs : List Nat) (h : bs.length % 3 = 1) : pad3 bs = bs ++ [0, 0] := by
  induction bs using pad3.induct with
  | case1 => simp at h
  | case2 b0 => rfl
  | case3 b0 b1 => simp at h
  | case4 b0 b1 b2 rest ih =>
      simp only [List.length_cons] at h
      simp only [pad3, ih (by omega), List.cons_append]

theorem pad3_mod2 (bs : List Nat) (h : bs.length % 3 = 2) : pad3 bs = bs ++ [0] := by
  induction bs using pad3.induct with
  | case1 => simp at h
  | case2 b0 => simp at h
  | case3 b0 b1 => rfl
  | case4 b0 b1 b2 rest ih =>
      simp only [List.length_cons] at h
      simp only [pad3, ih (by omega), List.cons_append]

theorem decodeB64_encodeB64 (bs : List Nat) (h : ∀ b ∈ bs, b < 256) :
    decodeB64 (encodeB64 bs) = some bs := by
  unfold decodeB64
  rw [decodeChunksCore_encodeB64 bs h]
  dsimp only
  have h2 := suffix2_encodeB64 bs
  have h1 := suffix1_encodeB64 bs
  have hm : bs.length % 3 = 0 ∨ bs.length % 3 = 1 ∨ bs.length % 3 = 2 := by omega
  rcases hm with hm | hm | hm
  · rw [if_neg (by rw [h2]; omega), if_neg (by rw [h1]; omega), pad3_mod0 bs hm]
  · rw [if_pos (h2.mpr hm), pad3_mod1 bs hm,
      show bs ++ [0, 0] = (bs ++ [0]) ++ [0] by simp,
      List.dropLast_concat, List.dropLast_concat]
  · rw [if_neg (by rw [h2]; omega), if_pos (h1.mpr (by omega)), pad3_mod2 bs hm,
      List.dropLast_concat]

theorem decodeChunksCore_isSome_of_mod4 (p : List Nat) (h : p.length % 4 = 0) :
    (decodeChunksCore p).isSome = true := by
  induction p using decodeChunksCore.induct with
  | case1 => rfl
  | case2 b0 b1 b2 b3 rest ih =>
      simp only [List.length_cons] at h
      simp only [decodeChunksCore, Option.isSome_map']
      exact ih (by omega)
  | case3 p h1 h2 =>
      exfalso
      rcases p with _ | ⟨a, _ | ⟨b, _ | ⟨c, _ | ⟨d, t⟩⟩⟩⟩
      · exact h1 rfl
      · simp at h
      · simp at h
      · simp at h
      · exact h2 a b c d t rfl

/-- C1: for every byte sequence (including the empty sequence and sequences
of length 1, 2, 3, and lengths that are not multiples of 3), running the
generated program's decode function on the string produced by the
build-time base64 encode of that sequence yields exactly the original byte
sequence. -/
theorem claim_c1_roundtrip (bs : List Nat) (h : ∀ b ∈ bs, b < 256) :
    decodeB64 (encodeB64 bs) = some bs :=
  decodeB64_encodeB64 bs h

/-- Witness for C1: the round trip evaluated at concrete byte sequences of
length 0, 1, 2, 3 and 4 (a non-multiple of 3). -/
theorem claim_c1_roundtrip_witness :
    decodeB64 (encodeB64 []) = some [] ∧
    decodeB64 (encodeB64 [202]) = some [202] ∧
    decodeB64 (encodeB64 [202, 254]) = some [202, 254] ∧
    decodeB64 (encodeB64 [202, 254, 186]) = some [202, 254, 186] ∧
    decodeB64 (encodeB64 [202, 254, 186, 190]) = some [202, 254, 186, 190] :=
  ⟨claim_c1_roundtrip [] (by decide),
   claim_c1_roundtrip [202] (by decide),
   claim_c1_roundtrip [202, 254] (by decide),
   claim_c1_roundtrip [202, 254, 186] (by decide),
   claim_c1_roundtrip [202, 254, 186, 190] (by decide)⟩

/-- C9: under the precondition that the payload was produced by the
build-time encoder — whose output length is always a multiple of 4
(second conjunct) — every 4-byte chunk the generated decoder indexes has
all of positions 0–3 in bounds, i.e. the chunk loop never reaches its
out-of-bounds branch (modelled as the `none` result of
`decodeChunksCore`). -/
theorem claim_c9_chunk_indexing_in_bounds :
    (∀ p : List Nat, p.length % 4 = 0 → (decodeChunksCore p).isSome = true) ∧
    (∀ bs : List Nat, (encodeB64 bs).length % 4 = 0) :=
  ⟨decodeChunksCore_isSome_of_mod4, encodeB64_length_mod4⟩

/-- C10: the generated decoder performs no input validation: its lookup
table sends every byte outside the 64-character alphabet — the padding
byte 61 (`'='`) included — to 0, the same value as the letter `'A'`
(byte 65), and the decoder succeeds on any byte string whose length is a
multiple of 4: a payload of invalid bytes silently decodes to the same
well-defined bytes as a payload of letters `'A'`. -/
theorem claim_c10_no_validation :
    (∀ b : Nat, b < 256 → b ∉ b64AlphabetBytes → tableLookup b = 0) ∧
    tableLookup 61 = 0 ∧ tableLookup 65 = 0 ∧
    (∀ p : List Nat, p.length % 4 = 0 → ∃ bytes, decodeB64 p = some bytes) ∧
    decodeChunksCore [37, 37, 37, 37] = decodeChunksCore [65, 65, 65, 65] := by
  refine ⟨by decide, by decide, by decide, ?_, by decide⟩
  intro p hp
  have hs := decodeChunksCore_isSome_of_mod4 p hp
  unfold decodeB64
  rcases hc : decodeChunksCore p with _ | acc
  · rw [hc] at hs; simp at hs
  · dsimp only
    by_cases h2 : [61, 61] <:+ p
    · exact ⟨acc.dropLast.dropLast, by rw [if_pos h2]⟩
    · by_cases h1 : [61] <:+ p
      · exact ⟨acc.dropLast, by rw [if_neg h2, if_pos h1]⟩
      · exact ⟨acc, by rw [if_neg h2, if_neg h1]⟩

/-- Witness for C9: both conjuncts applied at concrete inputs, with the
hypothesis of the first discharged at a length-8 payload. -/
theorem claim_c9_witness :
    (decodeChunksCore [65, 66, 67, 68, 97, 98, 99, 100]).isSome = true ∧
    (encodeB64 [1, 2, 3, 4, 5]).length % 4 = 0 :=
  ⟨claim_c9_chunk_indexing_in_bounds.1 [65, 66, 67, 68, 97, 98, 99, 100] (by decide),
   claim_c9_chunk_indexing_in_bounds.2 [1, 2, 3, 4, 5]⟩

/-- Witness for C10: the bounded conjuncts applied at concrete bytes and
the totality conjunct at a concrete invalid payload. -/
theorem claim_c10_witness :
    tableLookup 37 = 0 ∧ (∃ bytes, decodeB64 [37, 37, 37, 37] = some bytes) :=
  ⟨claim_c10_no_validation.1 37 (by decide) (by decide),
   claim_c10_no_validation.2.2.2.1 [37, 37, 37, 37] (by decide)⟩

/-! ## Target resolver

Shallow embedding of the `cargo_metadata` values the resolver reads
(lib.rs lines 197–255) and of the three resolution functions.  Only the
fields the resolver touches are modelled. -/

/-- A `cm::Target`: name, kind (a list of kind strings) and the absolute
path of the main source file. -/
structure Target where
  name : String
  kind : List String
  src_path : String
deriving DecidableEq

/-- A `cm::Package`: its id and its build targets. -/
structure Package where
  id : String
  targets : List Target
deriving DecidableEq

/-- A `cm::Metadata`: all packages, the workspace-member package ids, and
the shared target directory. -/
structure Metadata where
  packages : List Package
  workspace_members : List String
  target_directory : String
deriving DecidableEq

/-- The candidate iterator `bin_targets` (lib.rs lines 248–255): packages
that are workspace members, flattened to (target, package) pairs, kept
when the target's kind is exactly `["bin"]`. -/
def bin_targets (m : Metadata) : List (Target × Package) :=
  (((m.packages.filter fun p => m.workspace_members.contains p.id).flatMap
    fun p => p.targets.map fun t => (t, p)).filter
    fun tp => tp.1.kind == ["bin"])

/-- The rendering `bins.iter().map(name).format(", ")` of `itertools`:
items joined by a comma-space separator. -/
def joinComma : List String → String
  | [] => ""
  | [x] => x
  | x :: xs => x ++ ", " ++ joinComma xs

/-- The resolver `bin_target_by_name` (lib.rs lines 197–209). -/
def bin_target_by_name (m : Metadata) (name : String) : Except String (Target × Package) :=
  match (bin_targets m).filter fun tp => tp.1.name == name with
  | [] => .error ("no bin target named `" ++ name ++ "`")
  | [bin] => .ok bin
  | _ => .error ("multiple bin targets named `" ++ name ++ "` in this workspace")

/-- The resolver `bin_target_by_src_path` (lib.rs lines 211–229); note the
trailing space of the zero-match message is in the source. -/
def bin_target_by_src_path (m : Metadata) (src_path : String) :
    Except String (Target × Package) :=
  match (bin_targets m).filter fun tp => tp.1.src_path == src_path with
  | [] => .error ("`" ++ src_path
      ++ "` is not the main source file of any bin targets in this workspace ")
  | [bin] => .ok bin
  | _ => .error ("multiple bin targets which `src_path` is `" ++ src_path ++ "`")

/-- The resolver `exactly_one_bin_target` (lib.rs lines 231–246). -/
def exactly_one_bin_target (m : Metadata) : Except String (Target × Package) :=
  match bin_targets m with
  | [] => .error "no bin target in this workspace"
  | [bin] => .ok bin
  | bins => .error ("could not determine which binary to choose. Use the `--bin` option or `--src` option to specify a binary.\navailable binaries: "
      ++ joinComma (bins.map fun tp => tp.1.name)
      ++ "\nnote: currently `cargo-executable-payload` does not support the `default-run` manifest key.")

/-- The three selection modes of `run` (lib.rs lines 145–151). -/
inductive SelectionMode where
  | byName (name : String)
  | bySrcPath (src_path : String)
  | infer
deriving DecidableEq

/-- The candidate set of a mode: the bin targets of workspace members,
further filtered by the mode's criterion. -/
def candidates (m : Metadata) : SelectionMode → List (Target × Package)
  | .byName name => (bin_targets m).filter fun tp => tp.1.name == name
  | .bySrcPath p => (bin_targets m).filter fun tp => tp.1.src_path == p
  | .infer => bin_targets m

/-- Dispatch of `run` to the three resolvers (lib.rs lines 145–151). -/
def resolveTarget (m : Metadata) : SelectionMode → Except String (Target × Package)
  | .byName name => bin_target_by_name m name
  | .bySrcPath p => bin_target_by_src_path m p
  | .infer => exactly_one_bin_target m

/-- A workspace with a single bin target, used in witnesses. -/
def helloTarget : Target := { name := "hello", kind := ["bin"], src_path := "/w/src/main.rs" }

/-- The package owning `helloTarget`. -/
def helloPackage : Package := { id := "hello-id", targets := [helloTarget] }

/-- Metadata with exactly one bin target. -/
def mdHello : Metadata :=
  { packages := [helloPackage], workspace_members := ["hello-id"],
    target_directory := "/w/target" }

/-- A workspace with two member packages whose bin targets `alpha` and
`beta` share the same `src_path`. -/
def mdShared : Metadata :=
  { packages :=
      [{ id := "alpha-id",
         targets := [{ name := "alpha", kind := ["bin"], src_path := "/w/main.rs" }] },
       { id := "beta-id",
         targets := [{ name := "beta", kind := ["bin"], src_path := "/w/main.rs" }] }],
    workspace_members := ["alpha-id", "beta-id"],
    target_directory := "/w/target" }

/-- C2: for every workspace metadata and selection mode, resolution
returns a (target, package) pair exactly when the candidate set — bin
targets of workspace members filtered by the mode's criterion — is a
singleton (and then it returns that unique candidate); in every other
case it returns an error. -/
theorem claim_c2_resolution (m : Metadata) (mode : SelectionMode) :
    (∀ tp, resolveTarget m mode = .ok tp ↔ candidates m mode = [tp]) ∧
    ((candidates m mode).length ≠ 1 → ∃ e, resolveTarget m mode = .error e) := by
  cases mode with
  | byName name =>
      simp only [resolveTarget, candidates, bin_target_by_name]
      rcases hl : (bin_targets m).filter (fun tp => tp.1.name == name)
        with _ | ⟨a, _ | ⟨b, t⟩⟩ <;> simp [hl]
  | bySrcPath p =>
      simp only [resolveTarget, candidates, bin_target_by_src_path]
      rcases hl : (bin_targets m).filter (fun tp => tp.1.src_path == p)
        with _ | ⟨a, _ | ⟨b, t⟩⟩ <;> simp [hl]
  | infer =>
      simp only [resolveTarget, candidates, exactly_one_bin_target]
      rcases hl : bin_targets m with _ | ⟨a, _ | ⟨b, t⟩⟩ <;> simp [hl]

/-- Witness for C2: a singleton workspace resolves to its unique target,
and a two-target workspace yields an error under `Infer`. -/
theorem claim_c2_resolution_witness :
    resolveTarget mdHello .infer = .ok (helloTarget, helloPackage) ∧
    (∃ e, resolveTarget mdShared .infer = .error e) :=
  ⟨((claim_c2_resolution mdHello .infer).1 (helloTarget, helloPackage)).mpr (by decide),
   (claim_c2_resolution mdShared .infer).2 (by decide)⟩

theorem toList_append (a b : String) : (a ++ b).toList = a.toList ++ b.toList := by
  cases a; cases b; rfl

theorem infix_of_middle (a mid b : String) : mid.toList <:+: (a ++ mid ++ b).toList := by
  rw [toList_append, toList_append]
  exact List.infix_append a.toList mid.toList b.toList

theorem mem_infix_joinComma (s : String) (l : List String) (h : s ∈ l) :
    s.toList <:+: (joinComma l).toList := by
  induction l with
  | nil => cases h
  | cons x xs ih =>
      cases xs with
      | nil =>
          rcases List.mem_cons.mp h with h | h
          · subst h; exact List.infix_rfl
          · cases h
      | cons y ys =>
          rcases List.mem_cons.mp h with h | h
          · subst h
            rw [show joinComma (s :: y :: ys) = s ++ ", " ++ joinComma (y :: ys) from rfl,
              toList_append, toList_append]
            exact ((List.prefix_append s.toList _).trans
              (List.prefix_append _ _)).isInfix
          · have hsfx : (joinComma (y :: ys)).toList
                <:+ (joinComma (x :: y :: ys)).toList := by
              rw [show joinComma (x :: y :: ys) = x ++ ", " ++ joinComma (y :: ys) from rfl,
                toList_append]
              exact List.suffix_append _ _
            exact (ih h).trans hsfx.isInfix

/-- C4 counterexample: in the `BySourcePath` mode, with two member
packages whose bin targets `alpha` and `beta` share a `src_path`,
resolution fails but the failure message does not contain the name of
the matching candidate `alpha` (nor `beta`): it only names the source
path.  This falsifies the claim that in every selection mode the failure
message enumerates the names of all matching candidates. -/
theorem claim_c4_counterexample :
    (candidates mdShared (.bySrcPath "/w/main.rs")).length = 2 ∧
    resolveTarget mdShared (.bySrcPath "/w/main.rs")
      = .error "multiple bin targets which `src_path` is `/w/main.rs`" ∧
    ¬ ("alpha".toList
        <:+: "multiple bin targets which `src_path` is `/w/main.rs`".toList) ∧
    ¬ ("beta".toList
        <:+: "multiple bin targets which `src_path` is `/w/main.rs`".toList) := by
  refine ⟨by decide, rfl, by decide, by decide⟩

/-- C4 amended: when more than one candidate matches, resolution fails in
every mode; the failure message enumerates the names of all matching
candidates in the `Infer` mode, and contains the (necessarily shared)
matched name in the `ByName` mode; in the `BySourcePath` mode the message
contains the queried source path instead of the candidate names. -/
theorem claim_c4_amended (m : Metadata) :
    (∀ name, 2 ≤ (candidates m (.byName name)).length →
      ∃ msg, resolveTarget m (.byName name) = .error msg ∧
        ∀ tp ∈ candidates m (.byName name), tp.1.name.toList <:+: msg.toList) ∧
    (2 ≤ (candidates m .infer).length →
      ∃ msg, resolveTarget m .infer = .error msg ∧
        ∀ tp ∈ candidates m .infer, tp.1.name.toList <:+: msg.toList) ∧
    (∀ p, 2 ≤ (candidates m (.bySrcPath p)).length →
      ∃ msg, resolveTarget m (.bySrcPath p) = .error msg ∧
        p.toList <:+: msg.toList) := by
  refine ⟨?_, ?_, ?_⟩
  · intro name hlen
    simp only [resolveTarget, candidates, bin_target_by_name] at hlen ⊢
    rcases hl : (bin_targets m).filter (fun tp => tp.1.name == name)
      with _ | ⟨a, _ | ⟨b, t⟩⟩
    · rw [hl] at hlen; simp at hlen
    · rw [hl] at hlen; simp at hlen
    · rw [hl]
      refine ⟨_, rfl, ?_⟩
      intro tp htp
      have htp' : tp ∈ (bin_targets m).filter (fun tp => tp.1.name == name) := by
        rw [hl]; exact htp
      have hname : (tp.1.name == name) = true := (List.mem_filter.mp htp').2
      rw [eq_of_beq hname]
      exact infix_of_middle "multiple bin targets named `" name "` in this workspace"
  · intro hlen
    simp only [resolveTarget, candidates, exactly_one_bin_target] at hlen ⊢
    rcases hl : bin_targets m with _ | ⟨a, _ | ⟨b, t⟩⟩
    · rw [hl] at hlen; simp at hlen
    · rw [hl] at hlen; simp at hlen
    · refine ⟨_, rfl, ?_⟩
      intro tp htp
      have hmem : tp.1.name ∈ (a :: b :: t).map fun tp => tp.1.name :=
        List.mem_map_of_mem _ htp
      exact (mem_infix_joinComma _ _ hmem).trans
        (infix_of_middle
          "could not determine which binary to choose. Use the `--bin` option or `--src` option to specify a binary.\navailable binaries: "
          (joinComma ((a :: b :: t).map fun tp => tp.1.name))
          "\nnote: currently `cargo-executable-payload` does not support the `default-run` manifest key.")
  · intro p hlen
    simp only [resolveTarget, candidates, bin_target_by_src_path] at hlen ⊢
    rcases hl : (bin_targets m).filter (fun tp => tp.1.src_path == p)
      with _ | ⟨a, _ | ⟨b, t⟩⟩
    · rw [hl] at hlen; simp at hlen
    · rw [hl] at hlen; simp at hlen
    · rw [hl]
      exact ⟨_, rfl, infix_of_middle "multiple bin targets which `src_path` is `" p "`"⟩

/-- Witness for C4's amended theorem: the `BySourcePath` conjunct applied
to the shared-src-path workspace, and the `Infer` conjunct applied to the
same workspace. -/
theorem claim_c4_amended_witness :
    (∃ msg, resolveTarget mdShared (.bySrcPath "/w/main.rs") = .error msg ∧
      "/w/main.rs".toList <:+: msg.toList) ∧
    (∃ msg, resolveTarget mdShared .infer = .error msg ∧
      ∀ tp ∈ candidates mdShared .infer, tp.1.name.toList <:+: msg.toList) :=
  ⟨(claim_c4_amended mdShared).2.2 "/w/main.rs" (by decide),
   (claim_c4_amended mdShared).2.1 (by decide)⟩

/-! ## Artifact path computation (lib.rs lines 316–319)

`build` computes `target_dir.join(target).join("release").join(bin_name)`
and, when the triple contains `"windows"`, calls
`artifact_path.set_extension("exe")`.  We model `camino`'s Unix path
semantics: `join` appends with a `/` separator (an absolute argument
replaces the path), and `set_extension` *replaces* the final extension of
the file name rather than appending one. -/

/-- A `Utf8Path::join` for Unix paths: an absolute argument replaces the
path; otherwise the argument is appended, inserting `/` unless the path
is empty or already ends with a separator. -/
def pathJoin (a b : String) : String :=
  if b.toList.head? = some '/' then b
  else if a.toList = [] then b
  else if a.toList.getLast? = some '/' then a ++ b
  else a ++ "/" ++ b

/-- Rust `Path::set_extension` restricted to the file name: the portion
after the last `.` is replaced by `ext`; when there is no `.`, or the
only `.` is the leading character (a dotfile has no extension), `.ext` is
appended. -/
def setFileExt (name : String) (ext : String) : String :=
  let r := name.toList.reverse
  match r.dropWhile (fun c => c != '.') with
  | [] => name ++ "." ++ ext
  | _ :: rstem =>
      if rstem.isEmpty then name ++ "." ++ ext
      else String.mk rstem.reverse ++ "." ++ ext

/-- `Utf8PathBuf::set_extension` on a whole path: act on the component
after the last `/`; when that component is empty, `.` or `..` (no file
name), the path is unchanged. -/
def setExtension (p : String) (ext : String) : String :=
  let r := p.toList.reverse
  let name := String.mk (r.takeWhile fun c => c != '/').reverse
  if name = "" ∨ name = "." ∨ name = ".." then p
  else String.mk (r.dropWhile fun c => c != '/').reverse ++ setFileExt name ext

/-- The artifact path `build` computes (lib.rs lines 316–319):
`target_dir/target/release/bin_name`, with the `exe` extension set when
the triple contains the substring `windows`. -/
def artifactPath (target_dir target bin_name : String) : String :=
  let p := pathJoin (pathJoin (pathJoin target_dir target) "release") bin_name
  if "windows".toList <:+: target.toList then setExtension p "exe" else p

/-- Modelled from the spec's words for C3 only (refinement comparison):
the claimed path computation, in which a Windows triple *appends* the
platform suffix to the target name for every name. -/
def claimedArtifactPathC3 (target_dir target bin_name : String) : String :=
  let p := pathJoin (pathJoin (pathJoin target_dir target) "release") bin_name
  if "windows".toList <:+: target.toList then p ++ ".exe" else p

theorem string_eq_of_toList {a b : String} (h : a.toList = b.toList) : a = b := by
  cases a with
  | mk da =>
      cases b with
      | mk db =>
          simp only [String.toList] at h
          exact congrArg String.mk h

theorem mk_toList (s : String) : String.mk s.toList = s := by cases s; rfl

theorem takeWhile_append_all (l₁ l₂ : List Char) (p : Char → Bool)
    (h : ∀ x ∈ l₁, p x = true) :
    (l₁ ++ l₂).takeWhile p = l₁ ++ l₂.takeWhile p := by
  induction l₁ with
  | nil => simp
  | cons a t ih =>
      simp only [List.cons_append, List.takeWhile_cons, h a (by simp),
        ih fun x hx => h x (by simp [hx])]
      simp

theorem dropWhile_append_all (l₁ l₂ : List Char) (p : Char → Bool)
    (h : ∀ x ∈ l₁, p x = true) :
    (l₁ ++ l₂).dropWhile p = l₂.dropWhile p := by
  induction l₁ with
  | nil => simp
  | cons a t ih =>
      simp only [List.cons_append, List.dropWhile_cons, h a (by simp),
        ih fun x hx => h x (by simp [hx])]
      simp

theorem pathJoin_sep (a b : String) (hb : b.toList.head? ≠ some '/')
    (ha : a.toList ≠ []) (ha2 : a.toList.getLast? ≠ some '/') :
    pathJoin a b = a ++ "/" ++ b := by
  unfold pathJoin
  rw [if_neg hb, if_neg ha, if_neg ha2]

theorem artifact_base_eq (d t n : String)
    (hd1 : d.toList ≠ []) (hd2 : d.toList.getLast? ≠ some '/')
    (ht1 : t.toList.head? ≠ some '/') (ht2 : t.toList ≠ [])
    (ht3 : t.toList.getLast? ≠ some '/')
    (hn1 : n.toList.head? ≠ some '/') :
    pathJoin (pathJoin (pathJoin d t) "release") n
      = d ++ "/" ++ t ++ "/release/" ++ n := by
  have hdt : pathJoin d t = d ++ "/" ++ t := pathJoin_sep d t ht1 hd1 hd2
  have hdt_ne : (d ++ "/" ++ t).toList ≠ [] := by
    rw [toList_append]
    simp [ht2]
  have hdt_last : (d ++ "/" ++ t).toList.getLast? ≠ some '/' := by
    rw [toList_append, List.getLast?_append_of_ne_nil _ ht2]
    exact ht3
  have hrel : pathJoin (d ++ "/" ++ t) "release"
      = (d ++ "/" ++ t) ++ "/" ++ "release" :=
    pathJoin_sep _ _ (by decide) hdt_ne hdt_last
  have hrel_ne : ((d ++ "/" ++ t) ++ "/" ++ "release").toList ≠ [] := by
    rw [toList_append]
    simp
  have hrel_last : ((d ++ "/" ++ t) ++ "/" ++ "release").toList.getLast? ≠ some '/' := by
    rw [toList_append, List.getLast?_append_of_ne_nil _ (by decide)]
    decide
  rw [hdt, hrel, pathJoin_sep _ _ hn1 hrel_ne hrel_last]
  apply string_eq_of_toList
  simp only [toList_append, List.append_assoc]
  rw [show "/release/".toList = "/".toList ++ ("release".toList ++ "/".toList) from rfl]
  simp [List.append_assoc]

theorem abase_shape (d t x : String) :
    ((d ++ "/" ++ t) ++ "/" ++ "release") ++ "/" ++ x
      = d ++ "/" ++ t ++ "/release/" ++ x := by
  apply string_eq_of_toList
  simp only [toList_append, List.append_assoc]
  rw [show "/release/".toList = "/".toList ++ ("release".toList ++ "/".toList) from rfl]
  simp [List.append_assoc]

theorem setExtension_sep (a n ext : String)
    (hn_ne : n.toList ≠ []) (hnslash : ∀ c ∈ n.toList, c ≠ '/')
    (hdot1 : n ≠ ".") (hdot2 : n ≠ "..") :
    setExtension (a ++ "/" ++ n) ext = a ++ "/" ++ setFileExt n ext := by
  simp only [setExtension]
  have hrev : (a ++ "/" ++ n).toList.reverse
      = n.toList.reverse ++ ('/' :: a.toList.reverse) := by
    simp only [toList_append, List.reverse_append]
    rfl
  have hall : ∀ c ∈ n.toList.reverse, (c != '/') = true := by
    intro c hc
    simpa using hnslash c (List.mem_reverse.mp hc)
  have htake : ((a ++ "/" ++ n).toList.reverse.takeWhile fun c => c != '/')
      = n.toList.reverse := by
    rw [hrev, takeWhile_append_all _ _ _ hall]
    simp [List.takeWhile_cons]
  have hdrop : ((a ++ "/" ++ n).toList.reverse.dropWhile fun c => c != '/')
      = '/' :: a.toList.reverse := by
    rw [hrev, dropWhile_append_all _ _ _ hall]
    simp [List.dropWhile_cons]
  rw [htake, hdrop]
  simp only [List.reverse_reverse, mk_toList]
  have hne : ¬ (n = "" ∨ n = "." ∨ n = "..") := by
    rintro (h | h | h)
    · rw [h] at hn_ne; exact hn_ne rfl
    · exact hdot1 h
    · exact hdot2 h
  rw [if_neg hne]
  congr 1
  apply string_eq_of_toList
  rw [show ('/' :: a.toList.reverse).reverse = a.toList ++ ['/'] by simp]
  rw [show (String.mk (a.toList ++ ['/'])).toList = a.toList ++ ['/'] from rfl,
    toList_append]
  rfl

theorem dotless_setFileExt (n ext : String) (h : ∀ c ∈ n.toList, c ≠ '.') :
    setFileExt n ext = n ++ "." ++ ext := by
  simp only [setFileExt]
  have : (n.toList.reverse.dropWhile fun c => c != '.') = [] := by
    rw [List.dropWhile_eq_nil_iff]
    intro c hc
    simpa using h c (List.mem_reverse.mp hc)
  rw [this]

/-- C3 counterexample: for the Windows triple and the dot-containing
target name `a.b`, the code's `set_extension("exe")` *replaces* the final
extension, producing `.../release/a.exe`, while the claim's "append the
suffix to the name" reading demands `.../release/a.b.exe`; the two
computations disagree at this input. -/
theorem claim_c3_counterexample :
    artifactPath "/w/target" "x86_64-pc-windows-gnu" "a.b"
      = "/w/target/x86_64-pc-windows-gnu/release/a.exe" ∧
    claimedArtifactPathC3 "/w/target" "x86_64-pc-windows-gnu" "a.b"
      = "/w/target/x86_64-pc-windows-gnu/release/a.b.exe" ∧
    artifactPath "/w/target" "x86_64-pc-windows-gnu" "a.b"
      ≠ claimedArtifactPathC3 "/w/target" "x86_64-pc-windows-gnu" "a.b" := by
  refine ⟨by decide, by decide, by decide⟩

/-- C3 amended: the expected artifact path is
`target_directory/platform_triple/release/<target_name>`; when the triple
contains `windows`, the platform suffix `exe` is *set as the extension*
of the file name: appended for names without a dot, but replacing the
final dot-segment for names that contain one (for ordinary path inputs:
a separator-free non-empty name other than `.`/`..`, a triple and target
directory that are non-empty and do not begin/end with `/`). -/
theorem claim_c3_artifact_path (d t n : String)
    (hd1 : d.toList ≠ []) (hd2 : d.toList.getLast? ≠ some '/')
    (ht1 : t.toList.head? ≠ some '/') (ht2 : t.toList ≠ [])
    (ht3 : t.toList.getLast? ≠ some '/')
    (hn1 : n.toList ≠ []) (hnslash : ∀ c ∈ n.toList, c ≠ '/')
    (hdot1 : n ≠ ".") (hdot2 : n ≠ "..") :
    (¬ "windows".toList <:+: t.toList →
      artifactPath d t n = d ++ "/" ++ t ++ "/release/" ++ n) ∧
    ("windows".toList <:+: t.toList →
      artifactPath d t n = d ++ "/" ++ t ++ "/release/" ++ setFileExt n "exe") ∧
    ("windows".toList <:+: t.toList → (∀ c ∈ n.toList, c ≠ '.') →
      artifactPath d t n = d ++ "/" ++ t ++ "/release/" ++ (n ++ "." ++ "exe")) := by
  have hn0 : n.toList.head? ≠ some '/' := by
    intro hc
    rcases hnl : n.toList with _ | ⟨c, r⟩
    · rw [hnl] at hc; simp at hc
    · rw [hnl] at hc
      simp only [List.head?_cons, Option.some.injEq] at hc
      exact hnslash c (by rw [hnl]; exact List.mem_cons_self c r) hc
  have hbase : pathJoin (pathJoin (pathJoin d t) "release") n
      = d ++ "/" ++ t ++ "/release/" ++ n :=
    artifact_base_eq d t n hd1 hd2 ht1 ht2 ht3 hn0
  have hjoin : pathJoin (pathJoin (pathJoin d t) "release") n
      = ((d ++ "/" ++ t) ++ "/" ++ "release") ++ "/" ++ n :=
    hbase.trans (abase_shape d t n).symm
  refine ⟨?_, ?_, ?_⟩
  · intro hw
    simp only [artifactPath, if_neg hw]
    exact hbase
  · intro hw
    simp only [artifactPath, if_pos hw]
    rw [hjoin, setExtension_sep _ _ _ hn1 hnslash hdot1 hdot2, abase_shape]
  · intro hw hnd
    simp only [artifactPath, if_pos hw]
    rw [hjoin, setExtension_sep _ _ _ hn1 hnslash hdot1 hdot2,
      dotless_setFileExt n "exe" hnd, abase_shape]

/-- Witness for C3's amended theorem: a Linux triple keeps the bare name,
a Windows triple with the dot-free name `hello` gets `.exe` appended. -/
theorem claim_c3_artifact_path_witness :
    artifactPath "/w/target" "x86_64-unknown-linux-musl" "hello"
      = "/w/target" ++ "/" ++ "x86_64-unknown-linux-musl" ++ "/release/" ++ "hello" ∧
    artifactPath "/w/target" "x86_64-pc-windows-gnu" "hello"
      = "/w/target" ++ "/" ++ "x86_64-pc-windows-gnu" ++ "/release/"
        ++ ("hello" ++ "." ++ "exe") :=
  ⟨(claim_c3_artifact_path "/w/target" "x86_64-unknown-linux-musl" "hello"
      (by decide) (by decide) (by decide) (by decide) (by decide) (by decide)
      (by decide) (by decide) (by decide)).1 (by decide),
   (claim_c3_artifact_path "/w/target" "x86_64-pc-windows-gnu" "hello"
      (by decide) (by decide) (by decide) (by decide) (by decide) (by decide)
      (by decide) (by decide) (by decide)).2.2 (by decide) (by decide)⟩

/-! ## Build orchestration (lib.rs lines 257–347)

`build` is embedded over an abstract environment recording, for each
external interaction, whether it succeeds: tempdir creation (line 297),
the `$CARGO` variable (line 304), the `which` lookups and exit statuses
of the builder (line 314), `strip` (lines 327–331) and `upx`
(lines 333–340), the artifact copy (line 323) and read (line 342).
Directory removal itself is modelled as succeeding: each exit path
records that the `TempDir` RAII drop (on every `?` return) or the
explicit `close` (line 345) removed the scratch directory. -/

/-- External tools `build` may invoke. -/
inductive Tool where
  | builder
  | strip
  | upx
deriving DecidableEq

/-- Failure cases of `build`, tagged by the step that failed. -/
inductive BuildError where
  | tempdirFailed
  | cargoEnvMissing
  | toolMissing (t : Tool)
  | toolFailed (t : Tool)
  | copyFailed
  | readFailed
deriving DecidableEq

/-- Outcome of each external interaction of one `build` run. -/
structure BuildEnv where
  tempdirOk : Bool
  cargoVarPresent : Bool
  builderOnPath : Bool
  buildExitOk : Bool
  copyOk : Bool
  stripOnPath : Bool
  stripExitOk : Bool
  upxOnPath : Bool
  upxExitOk : Bool
  readOk : Bool
  artifactBytes : List Nat

/-- Whether the process-unique scratch directory was created during the
run, and whether it was removed again by the time the run finished. -/
structure ScratchState where
  created : Bool
  removed : Bool
deriving DecidableEq

/-- The control flow of `build` (lib.rs lines 257–347).  Strictly in
source order: tempdir, builder resolution (`cross` needs no `$CARGO`),
builder invocation, artifact copy into the scratch directory, best-effort
strip (skipped when not on the search path, fatal when found and
failing), best-effort upx (skipped when `no_upx` or not found, fatal when
found and failing), read, base64-encode, cleanup. -/
def buildRun (use_cross no_upx : Bool) (env : BuildEnv) :
    Except BuildError (List Nat) × ScratchState :=
  if ¬ env.tempdirOk then (.error .tempdirFailed, ⟨false, false⟩)
  else if ¬ use_cross ∧ ¬ env.cargoVarPresent then (.error .cargoEnvMissing, ⟨true, true⟩)
  else if ¬ env.builderOnPath then (.error (.toolMissing .builder), ⟨true, true⟩)
  else if ¬ env.buildExitOk then (.error (.toolFailed .builder), ⟨true, true⟩)
  else if ¬ env.copyOk then (.error .copyFailed, ⟨true, true⟩)
  else if env.stripOnPath ∧ ¬ env.stripExitOk then (.error (.toolFailed .strip), ⟨true, true⟩)
  else if ¬ no_upx ∧ env.upxOnPath ∧ ¬ env.upxExitOk then
    (.error (.toolFailed .upx), ⟨true, true⟩)
  else if ¬ env.readOk then (.error .readFailed, ⟨true, true⟩)
  else (.ok (encodeB64 env.artifactBytes), ⟨true, true⟩)

/-- C5: for strip and upx, a tool absent from the search path is skipped
without error — the result does not depend on that tool's exit status and
the run can still succeed — while any located external tool (builder,
strip or compressor) that exits non-zero makes the run fail. -/
theorem claim_c5_best_effort_tools (use_cross no_upx : Bool) (env : BuildEnv) :
    (env.stripOnPath = false →
      ∀ b c : Bool,
        buildRun use_cross no_upx { env with stripExitOk := b }
          = buildRun use_cross no_upx { env with stripExitOk := c }) ∧
    (env.stripOnPath = false → env.upxOnPath = false →
      env.tempdirOk = true → (use_cross = true ∨ env.cargoVarPresent = true) →
      env.builderOnPath = true → env.buildExitOk = true → env.copyOk = true →
      env.readOk = true →
      (buildRun use_cross no_upx env).1 = .ok (encodeB64 env.artifactBytes)) ∧
    (env.tempdirOk = true → (use_cross = true ∨ env.cargoVarPresent = true) →
      env.builderOnPath = true → env.buildExitOk = false →
      (buildRun use_cross no_upx env).1 = .error (.toolFailed .builder)) ∧
    (env.tempdirOk = true → (use_cross = true ∨ env.cargoVarPresent = true) →
      env.builderOnPath = true → env.buildExitOk = true → env.copyOk = true →
      env.stripOnPath = true → env.stripExitOk = false →
      (buildRun use_cross no_upx env).1 = .error (.toolFailed .strip)) ∧
    (no_upx = false → env.tempdirOk = true →
      (use_cross = true ∨ env.cargoVarPresent = true) →
      env.builderOnPath = true → env.buildExitOk = true → env.copyOk = true →
      (env.stripOnPath = false ∨ env.stripExitOk = true) →
      env.upxOnPath = true → env.upxExitOk = false →
      (buildRun use_cross no_upx env).1 = .error (.toolFailed .upx)) := by
  refine ⟨?_, ?_, ?_, ?_, ?_⟩
  · intro hs b c
    simp [buildRun, hs]
  · intro hs hu ht hc hb he hcp hr
    rcases hc with hc | hc <;> simp [buildRun, *]
  · intro ht hc hb he
    rcases hc with hc | hc <;> simp [buildRun, *]
  · intro ht hc hb he hcp hs hse
    rcases hc with hc | hc <;> simp [buildRun, *]
  · intro hnu ht hc hb he hcp hstrip hu hue
    rcases hc with hc | hc <;> rcases hstrip with hs | hs <;> simp [buildRun, *]

/-- C7: whenever a run of `build` created the scratch directory — whether
it then succeeded or failed at any later step — the directory has been
removed when the run finishes; and the directory is created in every run
in which tempdir creation succeeds (the first step). -/
theorem claim_c7_scratch_removed (use_cross no_upx : Bool) (env : BuildEnv) :
    ((buildRun use_cross no_upx env).2.created = true →
      (buildRun use_cross no_upx env).2.removed = true) ∧
    (env.tempdirOk = true → (buildRun use_cross no_upx env).2.created = true) := by
  unfold buildRun
  split_ifs <;> simp_all

/-- An environment in which every step succeeds and neither optional tool
is on the search path. -/
def envAllOk : BuildEnv :=
  { tempdirOk := true, cargoVarPresent := true, builderOnPath := true,
    buildExitOk := true, copyOk := true, stripOnPath := false,
    stripExitOk := true, upxOnPath := false, upxExitOk := true,
    readOk := true, artifactBytes := [7, 8] }

/-- Witness for C5: with both optional tools missing the run succeeds
with the encoded artifact; with `strip` present but failing the run
fails. -/
theorem claim_c5_witness :
    (buildRun false false envAllOk).1 = .ok (encodeB64 [7, 8]) ∧
    (buildRun false false
        { envAllOk with stripOnPath := true, stripExitOk := false }).1
      = .error (.toolFailed .strip) :=
  ⟨(claim_c5_best_effort_tools false false envAllOk).2.1 rfl rfl rfl
      (Or.inr rfl) rfl rfl rfl rfl,
   (claim_c5_best_effort_tools false false
      { envAllOk with stripOnPath := true, stripExitOk := false }).2.2.2.1
      rfl (Or.inr rfl) rfl rfl rfl rfl rfl⟩

/-- Witness for C7: in the all-success environment the scratch directory
is created, and created implies removed. -/
theorem claim_c7_witness :
    (buildRun false false envAllOk).2.created = true ∧
    (buildRun false false envAllOk).2.removed = true :=
  ⟨(claim_c7_scratch_removed false false envAllOk).2 rfl,
   (claim_c7_scratch_removed false false envAllOk).1
     ((claim_c7_scratch_removed false false envAllOk).2 rfl)⟩

/-! ## The generated loader (template in lib.rs lines 365–372)

The template's `main` is: `File::create(PATH)?`, `write_all(&decode())?`,
`set_permissions(0o755)?`, `sync_all()?`, `drop(file)`,
`Err(Command::new(PATH).exec())`.  `exec` only returns on failure, so a
successful replacement never reaches the `Err`; a failed replacement is
returned as that error.  A panic of `decode()` (impossible for encoder
output, claim C9) is modelled as a distinct `panicked` outcome. -/

/-- The fixed extraction path `PATH` of the template (lib.rs line 405). -/
def loaderPATH : String := "/tmp/a.out"

/-- The fallible steps of the loader, in source order. -/
inductive LoaderStep where
  | create
  | write
  | setPerm
  | sync
  | exec
deriving DecidableEq

/-- Success or failure of each I/O interaction of the loader. -/
structure LoaderEnv where
  createOk : Bool
  writeOk : Bool
  permOk : Bool
  syncOk : Bool
  execOk : Bool

/-- State of the file at `PATH`: its content once fully written, and its
permission mode once set. -/
structure FileState where
  content : Option (List Nat)
  mode : Option Nat
deriving DecidableEq

/-- How the loader run ended: the process image was replaced by `path`
run with `args`, or an I/O/exec error was returned from `main`, or
`decode()` panicked. -/
inductive LoaderOutcome where
  | replaced (path : String) (args : List String)
  | ioError (s : LoaderStep)
  | panicked
deriving DecidableEq

/-- Result of a loader run: the outcome, the steps attempted in order,
and the file at `PATH` (`none` when never created). -/
structure LoaderResult where
  outcome : LoaderOutcome
  trace : List LoaderStep
  file : Option FileState
deriving DecidableEq

/-- The template's `main` (lib.rs lines 365–372) over a payload byte
string: each step runs only if every earlier step succeeded, and the
first failure is returned from `main` as its error. -/
def loaderMain (env : LoaderEnv) (payload : List Nat) : LoaderResult :=
  if ¬ env.createOk then ⟨.ioError .create, [.create], none⟩
  else
    match decodeB64 payload with
    | none => ⟨.panicked, [.create], some ⟨none, none⟩⟩
    | some bytes =>
        if ¬ env.writeOk then ⟨.ioError .write, [.create, .write], some ⟨none, none⟩⟩
        else if ¬ env.permOk then
          ⟨.ioError .setPerm, [.create, .write, .setPerm], some ⟨some bytes, none⟩⟩
        else if ¬ env.syncOk then
          ⟨.ioError .sync, [.create, .write, .setPerm, .sync], some ⟨some bytes, some 493⟩⟩
        else if ¬ env.execOk then
          ⟨.ioError .exec, [.create, .write, .setPerm, .sync, .exec],
            some ⟨some bytes, some 493⟩⟩
        else ⟨.replaced loaderPATH [], [.create, .write, .setPerm, .sync, .exec],
          some ⟨some bytes, some 493⟩⟩

/-- C6: the loader performs create, write-decoded-bytes, set mode 0755
(= 493), sync, exec — in this order (the attempted steps are always a
prefix of that sequence); when everything succeeds, the file at the fixed
path holds exactly the decoded payload with mode 0755 and the process is
replaced by that path with no arguments; and every failure, the final
process replacement included, is returned as an error for its step,
never ignored. -/
theorem claim_c6_loader_order_and_errors (env : LoaderEnv) (payload : List Nat) :
    ((loaderMain env payload).trace
      <+: [LoaderStep.create, .write, .setPerm, .sync, .exec]) ∧
    (env.createOk = true → env.writeOk = true → env.permOk = true →
      env.syncOk = true → env.execOk = true →
      ∀ bytes, decodeB64 payload = some bytes →
      loaderMain env payload
        = ⟨.replaced loaderPATH [], [.create, .write, .setPerm, .sync, .exec],
           some ⟨some bytes, some 493⟩⟩) ∧
    (env.createOk = false →
      (loaderMain env payload).outcome = .ioError .create) ∧
    (env.createOk = true → env.writeOk = false →
      ∀ bytes, decodeB64 payload = some bytes →
      (loaderMain env payload).outcome = .ioError .write) ∧
    (env.createOk = true → env.writeOk = true → env.permOk = false →
      ∀ bytes, decodeB64 payload = some bytes →
      (loaderMain env payload).outcome = .ioError .setPerm) ∧
    (env.createOk = true → env.writeOk = true → env.permOk = true →
      env.syncOk = false → ∀ bytes, decodeB64 payload = some bytes →
      (loaderMain env payload).outcome = .ioError .sync) ∧
    (env.createOk = true → env.writeOk = true → env.permOk = true →
      env.syncOk = true → env.execOk = false →
      ∀ bytes, decodeB64 payload = some bytes →
      (loaderMain env payload).outcome = .ioError .exec) := by
  refine ⟨?_, ?_, ?_, ?_, ?_, ?_, ?_⟩
  · obtain ⟨c, w, pm, sy, ex⟩ := env
    rcases hd : decodeB64 payload with _ | bytes <;>
      cases c <;> cases w <;> cases pm <;> cases sy <;> cases ex <;>
      simp [loaderMain, hd]
  · intro h1 h2 h3 h4 h5 bytes hd
    simp [loaderMain, h1, h2, h3, h4, h5, hd]
  · intro h1
    simp [loaderMain, h1]
  · intro h1 h2 bytes hd
    simp [loaderMain, h1, h2, hd]
  · intro h1 h2 h3 bytes hd
    simp [loaderMain, h1, h2, h3, hd]
  · intro h1 h2 h3 h4 bytes hd
    simp [loaderMain, h1, h2, h3, h4, hd]
  · intro h1 h2 h3 h4 h5 bytes hd
    simp [loaderMain, h1, h2, h3, h4, h5, hd]

/-- Witness for C6: with every step succeeding, the loader writes the
decoded payload with mode 0755 and replaces the process with
`/tmp/a.out` and no arguments; with a failing `exec`, the error is
returned. -/
theorem claim_c6_witness :
    loaderMain ⟨true, true, true, true, true⟩ (encodeB64 [1, 2, 3])
      = ⟨.replaced loaderPATH [], [.create, .write, .setPerm, .sync, .exec],
         some ⟨some [1, 2, 3], some 493⟩⟩ ∧
    (loaderMain ⟨true, true, true, true, false⟩ (encodeB64 [1, 2, 3])).outcome
      = .ioError .exec :=
  ⟨(claim_c6_loader_order_and_errors ⟨true, true, true, true, true⟩
      (encodeB64 [1, 2, 3])).2.1 rfl rfl rfl rfl rfl [1, 2, 3]
      (decodeB64_encodeB64 [1, 2, 3] (by decide)),
   (claim_c6_loader_order_and_errors ⟨true, true, true, true, false⟩
      (encodeB64 [1, 2, 3])).2.2.2.2.2.2 rfl rfl rfl rfl rfl [1, 2, 3]
      (decodeB64_encodeB64 [1, 2, 3] (by decide))⟩

/-! ## Template generator (lib.rs lines 349–417)

`format_with_template` renders the original source as a documentation
block — each line of `lines()` mapped to `//! {line}\n`, a blank line to
the bare marker `//!\n`, joined with no separator — and splices it with
the encoded payload into the fixed template. -/

/-- Splitting a character list at `'\n'`, keeping every (possibly empty)
segment; the terminators are consumed.  Never returns `[]`. -/
def splitNL : List Char → List (List Char)
  | [] => [[]]
  | c :: r =>
      if c = '\n' then [] :: splitNL r
      else
        match splitNL r with
        | [] => [[c]]
        | l :: ls => (c :: l) :: ls

/-- Removing one trailing `'\r'`, as Rust's `lines()` does for a segment
terminated by `'\n'` (turning a `\r\n` terminator into nothing). -/
def stripCR (l : List Char) : List Char :=
  if l.getLast? = some '\r' then l.dropLast else l

/-- Rust `str::lines` on a character list: `'\n'`-terminated segments
with one trailing `'\r'` stripped, plus the final unterminated segment
when it is non-empty. -/
def rustLinesL (s : List Char) : List (List Char) :=
  (splitNL s).dropLast.map stripCR
    ++ (if (splitNL s).getLastD [] = [] then [] else [(splitNL s).getLastD []])

/-- The per-line closure of `format_with_template` (lib.rs lines
410–413): a blank line becomes `//!\n`, any other line `//! {line}\n`. -/
def renderDocLineL (line : List Char) : List Char :=
  if line = [] then "//!\n".toList else "//! ".toList ++ line ++ ['\n']

/-- The `original_source_code` replacement text (lib.rs lines 408–414):
the rendered lines joined with no separator. -/
def renderOriginalL (src : List Char) : List Char :=
  ((rustLinesL src).map renderDocLineL).flatten

theorem splitNL_ne_nil (s : List Char) : splitNL s ≠ [] := by
  cases s with
  | nil => simp [splitNL]
  | cons c r =>
      simp only [splitNL]
      split
      · simp
      · rcases splitNL r with _ | ⟨l, ls⟩ <;> simp

theorem splitNL_append_line (l rest : List Char) (h : '\n' ∉ l) :
    splitNL (l ++ '\n' :: rest) = l :: splitNL rest := by
  induction l with
  | nil =>
      simp [List.nil_append, splitNL]
  | cons c t ih =>
      have hc : c ≠ '\n' := fun e => h (e ▸ List.mem_cons_self c t)
      have ht : '\n' ∉ t := fun hm => h (List.mem_cons_of_mem _ hm)
      rw [List.cons_append]
      simp only [splitNL, if_neg hc, ih ht]

theorem splitNL_flatten_lines (ls : List (List Char)) (h : ∀ l ∈ ls, '\n' ∉ l) :
    splitNL ((ls.map fun l => l ++ ['\n']).flatten) = ls ++ [[]] := by
  induction ls with
  | nil => rfl
  | cons x xs ih =>
      have hx : '\n' ∉ x := h x (List.mem_cons_self x xs)
      have hxs : ∀ l ∈ xs, '\n' ∉ l := fun l hl => h l (List.mem_cons_of_mem _ hl)
      rw [List.map_cons, List.flatten_cons, List.append_assoc, List.singleton_append,
        splitNL_append_line x _ hx, ih hxs, List.cons_append]

theorem rustLinesL_flatten_lines (ls : List (List Char)) (h : ∀ l ∈ ls, '\n' ∉ l) :
    rustLinesL ((ls.map fun l => l ++ ['\n']).flatten) = ls.map stripCR := by
  unfold rustLinesL
  rw [splitNL_flatten_lines ls h, List.dropLast_concat]
  simp [List.getLastD_concat]

/-- A rendered line without its terminator: the bare marker for a blank
line, the marker-prefixed line otherwise. -/
def markerOf (line : List Char) : List Char :=
  if line = [] then "//!".toList else "//! ".toList ++ line

theorem renderDocLineL_eq (l : List Char) : renderDocLineL l = markerOf l ++ ['\n'] := by
  by_cases h : l = []
  · simp only [renderDocLineL, markerOf, if_pos h]
    rfl
  · simp only [renderDocLineL, markerOf, if_neg h, List.append_assoc]

theorem renderOriginalL_eq (src : List Char) :
    renderOriginalL src
      = (((rustLinesL src).map markerOf).map fun l => l ++ ['\n']).flatten := by
  unfold renderOriginalL
  rw [List.map_map]
  congr 1
  exact List.map_congr_left fun l _ => renderDocLineL_eq l

theorem splitNL_no_newline (s : List Char) : ∀ l ∈ splitNL s, '\n' ∉ l := by
  induction s with
  | nil =>
      intro l hl
      simp only [splitNL, List.mem_singleton] at hl
      subst hl; simp
  | cons c r ih =>
      intro l hl
      simp only [splitNL] at hl
      by_cases hc : c = '\n'
      · rw [if_pos hc] at hl
        rcases List.mem_cons.mp hl with h | h
        · subst h; simp
        · exact ih l h
      · rw [if_neg hc] at hl
        rcases hsp : splitNL r with _ | ⟨x, xs⟩
        · rw [hsp] at hl
          simp only [List.mem_singleton] at hl
          subst hl
          simp only [List.mem_singleton]
          exact fun e => hc e.symm
        · rw [hsp] at hl
          rcases List.mem_cons.mp hl with h | h
          · subst h
            intro hmem
            rcases List.mem_cons.mp hmem with h2 | h2
            · exact hc h2.symm
            · exact ih x (by rw [hsp]; exact List.mem_cons_self x xs) h2
          · exact ih l (by rw [hsp]; exact List.mem_cons_of_mem x h)

theorem rustLinesL_no_newline (s : List Char) : ∀ l ∈ rustLinesL s, '\n' ∉ l := by
  intro l hl
  unfold rustLinesL at hl
  rcases List.mem_append.mp hl with h | h
  · rcases List.mem_map.mp h with ⟨x, hx, rfl⟩
    have hxs : x ∈ splitNL s := (List.dropLast_sublist (splitNL s)).subset hx
    have hnn := splitNL_no_newline s x hxs
    unfold stripCR
    split
    · exact fun hm => hnn ((List.dropLast_sublist x).subset hm)
    · exact hnn
  · split at h
    · cases h
    · rw [List.mem_singleton] at h
      subst h
      rcases hgl : (splitNL s).getLast? with _ | x
      · exact absurd (by simpa using hgl) (splitNL_ne_nil s)
      · rw [List.getLastD_eq_getLast?, hgl]
        have h0 : splitNL s ≠ [] := splitNL_ne_nil s
        have h1 := List.getLast?_eq_getLast_of_ne_nil h0
        rw [hgl] at h1
        have h2 : x ∈ splitNL s := by
          rw [Option.some.inj h1]
          exact List.getLast_mem h0
        simpa using splitNL_no_newline s x h2

theorem rustLinesL_render (src : List Char) :
    rustLinesL (renderOriginalL src)
      = (rustLinesL src).map fun l => stripCR (markerOf l) := by
  have hnl : ∀ l ∈ (rustLinesL src).map markerOf, '\n' ∉ l := by
    intro l hl
    rcases List.mem_map.mp hl with ⟨x, hx, rfl⟩
    have hxn := rustLinesL_no_newline src x hx
    unfold markerOf
    split
    · decide
    · intro hm
      rcases List.mem_append.mp hm with h | h
      · exact absurd h (by decide)
      · exact hxn h
  rw [renderOriginalL_eq, rustLinesL_flatten_lines _ hnl, List.map_map]
  rfl

theorem prefix_take_of_prefix (p l : List Char) (k : Nat) (hp : p <+: l)
    (hk : p.length ≤ k) : p <+: l.take k := by
  rw [List.prefix_iff_eq_take] at hp ⊢
  rw [List.take_take, min_eq_left hk]
  exact hp

theorem prefix_stripCR (p l : List Char) (hp : p <+: l)
    (hlen : p.length + 1 ≤ l.length) : p <+: stripCR l := by
  unfold stripCR
  split
  · rw [List.dropLast_eq_take]
    exact prefix_take_of_prefix p l _ hp (by omega)
  · exact hp

/-- The fixed template text before the rendered original source
(lib.rs lines 351–356). -/
def templateHeader : String :=
  "//! This code is generated by [cargo-executable-payload](https://github.com/qryxip/cargo-executable-payload).\n//!\n//! # Original source code\n//!\n//! ```\n"

/-- The fixed template text between the rendered original source and the
payload literal (lib.rs lines 356–406). -/
def templateMid : String :=
  "//! ```\n\nuse std::\x7b\n    fs::\x7bFile, Permissions\x7d,\n    io::\x7bself, Write as _\x7d,\n    os::unix::\x7bfs::PermissionsExt as _, process::CommandExt as _\x7d,\n    process::Command,\n\x7d;\n\nfn main() -> io::Result<()> \x7b\n    let mut file = File::create(PATH)?;\n    file.write_all(&decode())?;\n    file.set_permissions(Permissions::from_mode(0o755))?;\n    file.sync_all()?;\n    drop(file);\n    Err(Command::new(PATH).exec())\n\x7d\n\nfn decode() -> Vec<u8> \x7b\n    let mut table = [0; 256];\n    for (i, &c) in b\"ABCDEFGHIJKLMNOPQRSTUVWXYZabcdefghijklmnopqrstuvwxyz0123456789+/\"\n        .iter()\n        .enumerate()\n    \x7b\n        table[usize::from(c)] = i as u8;\n    \x7d\n\n    let mut acc = vec![];\n\n    for chunk in PAYLOAD.as_bytes().chunks(4) \x7b\n        let index0 = table[usize::from(chunk[0])];\n        let index1 = table[usize::from(chunk[1])];\n        let index2 = table[usize::from(chunk[2])];\n        let index3 = table[usize::from(chunk[3])];\n        acc.push((index0 << 2) + (index1 >> 4));\n        acc.push((index1 << 4) + (index2 >> 2));\n        acc.push((index2 << 6) + index3);\n    \x7d\n\n    if PAYLOAD.ends_with(\"==\") \x7b\n        acc.pop();\n        acc.pop();\n    \x7d else if PAYLOAD.ends_with(\x27=\x27) \x7b\n        acc.pop();\n    \x7d\n\n    acc\n\x7d\n\nstatic PATH: &str = \"/tmp/a.out\";\nstatic PAYLOAD: &str = \""

/-- The fixed template text after the payload literal (lib.rs lines
406–407). -/
def templateFooter : String :=
  "\";\n"

/-- The function `format_with_template` (lib.rs lines 349–417): the
template with the rendered original source and the payload substituted. -/
def format_with_template (original_source_code payload : String) : String :=
  templateHeader ++ String.mk (renderOriginalL original_source_code.toList)
    ++ templateMid ++ payload ++ templateFooter

/-- C8: the template generator is deterministic — equal inputs give
byte-identical output — and the documentation block rendered from the
original source has exactly one comment-marker line per line of the
original source: the rendered text has as many lines as the original,
every rendered line starts with the marker `//!`, and each blank
original line is rendered as exactly the bare marker. -/
theorem claim_c8_template_rendering (src payload src2 payload2 : String) :
    (src = src2 → payload = payload2 →
      format_with_template src payload = format_with_template src2 payload2) ∧
    (rustLinesL (renderOriginalL src.toList)).length = (rustLinesL src.toList).length ∧
    (∀ l ∈ rustLinesL (renderOriginalL src.toList), "//!".toList <+: l) ∧
    (∀ i, i < (rustLinesL src.toList).length →
      (rustLinesL src.toList).getD i [] = [] →
      (rustLinesL (renderOriginalL src.toList)).getD i [] = "//!".toList) := by
  refine ⟨fun h1 h2 => by rw [h1, h2], ?_, ?_, ?_⟩
  · rw [rustLinesL_render, List.length_map]
  · intro l hl
    rw [rustLinesL_render] at hl
    rcases List.mem_map.mp hl with ⟨x, hx, rfl⟩
    by_cases hxe : x = []
    · subst hxe; decide
    · unfold markerOf
      rw [if_neg hxe]
      refine prefix_stripCR _ _ ⟨' ' :: x, rfl⟩ ?_
      simp only [List.length_append]
      have h3 : "//!".toList.length = 3 := rfl
      have h4 : "//! ".toList.length = 4 := rfl
      omega
  · intro i hi hblank
    rw [rustLinesL_render, List.getD_eq_getElem?_getD, List.getElem?_map,
      List.getElem?_eq_getElem hi]
    rw [List.getD_eq_getElem?_getD, List.getElem?_eq_getElem hi] at hblank
    simp only [Option.getD_some] at hblank
    simp only [Option.map_some', Option.getD_some, hblank]
    decide

/-- Witness for C8: determinism and the blank-line conjunct evaluated on
the three-line source `"a\n\nb"` whose middle line is blank. -/
theorem claim_c8_witness :
    format_with_template "a\n\nb" "QQ==" = format_with_template "a\n\nb" "QQ==" ∧
    (rustLinesL (renderOriginalL "a\n\nb".toList)).length
      = (rustLinesL "a\n\nb".toList).length ∧
    (rustLinesL (renderOriginalL "a\n\nb".toList)).getD 1 [] = "//!".toList :=
  ⟨(claim_c8_template_rendering "a\n\nb" "QQ==" "a\n\nb" "QQ==").1 rfl rfl,
   (claim_c8_template_rendering "a\n\nb" "QQ==" "a\n\nb" "QQ==").2.1,
   (claim_c8_template_rendering "a\n\nb" "QQ==" "a\n\nb" "QQ==").2.2.2 1
     (by decide) (by decide)⟩
